import Mathlib

/-!
Verification development for the `simple_python_app` bootstrap framework.

The development shallowly embeds the parts of the code base that the
documented properties talk about:

* the hierarchical command registry (`Command` in
  `simple_python_app/subcommand_application.py`, mirrored by
  `simple_python_app/subcommands.py`): `add_subcommand`,
  `find_subcommand`, `commands_to_dict`;
* configuration-file resolution (`GenericApplication.find_file` and the
  precedence logic of `__init_application_config` /
  `__init_custom_logging` in `simple_python_app/generic_application.py`);
* logging finalization (`__get_logfile_filepath`,
  `__set_file_handler_filename`);
* the control flow of `__init_custom_logging` / `__init_default_logging`,
  of `GenericApplication.start`, of the stage-one argument check, and of
  the interactive shell loop in `SubcommandApplication._handle_root_command`.

Python dictionaries are embedded as association lists with insert-or-replace
semantics (replacing keeps the original position, as Python dicts do),
Python `None`-able values as `Option`, raised exceptions as explicit
outcome datatypes, and filesystem state as a boolean existence predicate
over path strings.
-/

namespace SimplePythonApp

/-- Insert-or-replace on an association list, with Python-dict semantics:
`d[k] = v` replaces the value of an existing key in place (keeping its
position) and otherwise appends the new binding at the end. -/
def dictInsert (l : List (String × α)) (k : String) (v : α) : List (String × α) :=
  match l with
  | [] => [(k, v)]
  | (k₀, v₀) :: rest => if k₀ = k then (k, v) :: rest else (k₀, v₀) :: dictInsert rest k v

/-- Key lookup on an association list (`k in d` / `d[k]`): first binding wins. -/
def dictGet? (l : List (String × α)) (k : String) : Option α :=
  match l with
  | [] => none
  | (k₀, v₀) :: rest => if k₀ = k then some v₀ else dictGet? rest k

/-- Python dict merge `l | r`: start from `l` and update with every binding
of `r` in order, right-hand side winning on key clashes. -/
def dictMerge (l r : List (String × α)) : List (String × α) :=
  r.foldl (fun acc kv => dictInsert acc kv.1 kv.2) l

theorem dictGet?_dictInsert (l : List (String × α)) (k k' : String) (v : α) :
    dictGet? (dictInsert l k v) k' = if k = k' then some v else dictGet? l k' := by
  induction l with
  | nil => simp [dictInsert, dictGet?]
  | cons hd tl ih =>
    obtain ⟨k₀, v₀⟩ := hd
    by_cases h0 : k₀ = k
    · subst h0
      by_cases h1 : k₀ = k'
      · subst h1; simp [dictInsert, dictGet?]
      · simp [dictInsert, dictGet?, h1]
    · by_cases h1 : k₀ = k'
      · subst h1
        have hk : ¬k = k₀ := fun h => h0 h.symm
        simp [dictInsert, dictGet?, h0, hk]
      · simp [dictInsert, dictGet?, h0, h1, ih]

theorem dictGet?_dictInsert_self (l : List (String × α)) (k : String) (v : α) :
    dictGet? (dictInsert l k v) k = some v := by
  simp [dictGet?_dictInsert]

theorem mem_dictInsert (l : List (String × α)) (k : String) (v : α) (p : String × α)
    (h : p ∈ dictInsert l k v) : p = (k, v) ∨ p ∈ l := by
  induction l with
  | nil => simpa [dictInsert] using h
  | cons hd tl ih =>
    obtain ⟨k₀, v₀⟩ := hd
    by_cases h0 : k₀ = k
    · subst h0
      rcases (by simpa [dictInsert] using h : p = (k₀, v) ∨ p ∈ tl) with h1 | h1
      · exact Or.inl h1
      · exact Or.inr (List.mem_cons_of_mem _ h1)
    · rcases (by simpa [dictInsert, h0] using h : p = (k₀, v₀) ∨ p ∈ dictInsert tl k v) with h1 | h1
      · exact Or.inr (by simp [h1])
      · rcases ih h1 with h2 | h2
        · exact Or.inl h2
        · exact Or.inr (List.mem_cons_of_mem _ h2)

theorem dictGet?_mem (l : List (String × α)) (k : String) (v : α)
    (h : dictGet? l k = some v) : (k, v) ∈ l := by
  induction l with
  | nil => simp [dictGet?] at h
  | cons hd tl ih =>
    obtain ⟨k₀, v₀⟩ := hd
    by_cases h0 : k₀ = k
    · subst h0
      simp [dictGet?] at h
      simp [h]
    · simp [dictGet?, h0] at h
      exact List.mem_cons_of_mem _ (ih h)

theorem dictInsert_ne_nil (l : List (String × α)) (k : String) (v : α) :
    dictInsert l k v ≠ [] := by
  cases l with
  | nil => simp [dictInsert]
  | cons hd tl =>
    obtain ⟨k₀, v₀⟩ := hd
    by_cases h0 : k₀ = k <;> simp [dictInsert, h0]

theorem dictMerge_eq_nil_iff (l r : List (String × α)) :
    dictMerge l r = [] ↔ l = [] ∧ r = [] := by
  induction r generalizing l with
  | nil => simp [dictMerge]
  | cons hd tl ih =>
    obtain ⟨k₀, v₀⟩ := hd
    constructor
    · intro h
      have h1 : dictMerge (dictInsert l k₀ v₀) tl = [] := by
        simpa [dictMerge] using h
      exact absurd ((ih _).mp h1).1 (dictInsert_ne_nil l k₀ v₀)
    · rintro ⟨-, h⟩
      exact absurd h (by simp)

theorem dictGet?_dictMerge_mapConst (l : List (String × α)) (ks : List String) (v : α)
    (k : String) :
    dictGet? (dictMerge l (ks.map (fun a => (a, v)))) k =
      if k ∈ ks then some v else dictGet? l k := by
  induction ks generalizing l with
  | nil => simp [dictMerge]
  | cons a tl ih =>
    have step : dictMerge l ((a :: tl).map (fun a => (a, v))) =
        dictMerge (dictInsert l a v) (tl.map (fun a => (a, v))) := by
      simp [dictMerge]
    rw [step, ih]
    by_cases hmem : k ∈ tl
    · simp [hmem]
    · by_cases hak : a = k
      · subst hak
        simp [hmem, dictGet?_dictInsert_self]
      · have hka : ¬k = a := fun h => hak h.symm
        simp [hmem, dictGet?_dictInsert, hak, hka]

/-!
## The hierarchical command registry

`Command` (`simple_python_app/subcommand_application.py`, lines 19-95;
`simple_python_app/subcommands.py` carries the same `add_subcommand` /
`find_subcommand` logic without the flag handling) owns:

* `parser` — its argument-parser scope.  Of the parser we embed exactly
  what the verified operations read: the flattened list of option strings
  of its actions (`flags`), read by `commands_to_dict`.
* `handler` — an optional handler; we embed handlers by an opaque `Nat`
  identity since only presence and identity matter.
* `subparser` — `None` until the first child is added, at which point it
  is created with `required = (self.handler is None)`.  We embed it as
  `Option Bool` holding the `required` flag.
* `subcommands` — a Python dict from child name to child node.
-/

inductive Cmd where
  | mk (flags : List String) (handler : Option Nat) (subparserRequired : Option Bool)
      (subcommands : List (String × Cmd))

def Cmd.flags : Cmd → List String
  | .mk f _ _ _ => f

def Cmd.handler : Cmd → Option Nat
  | .mk _ h _ _ => h

def Cmd.subparserRequired : Cmd → Option Bool
  | .mk _ _ r _ => r

def Cmd.subcommands : Cmd → List (String × Cmd)
  | .mk _ _ _ s => s

@[simp] theorem Cmd.flags_mk (f : List String) (h : Option Nat) (r : Option Bool)
    (s : List (String × Cmd)) : (Cmd.mk f h r s).flags = f := rfl

@[simp] theorem Cmd.handler_mk (f : List String) (h : Option Nat) (r : Option Bool)
    (s : List (String × Cmd)) : (Cmd.mk f h r s).handler = h := rfl

@[simp] theorem Cmd.subparserRequired_mk (f : List String) (h : Option Nat) (r : Option Bool)
    (s : List (String × Cmd)) : (Cmd.mk f h r s).subparserRequired = r := rfl

@[simp] theorem Cmd.subcommands_mk (f : List String) (h : Option Nat) (r : Option Bool)
    (s : List (String × Cmd)) : (Cmd.mk f h r s).subcommands = s := rfl

/-- A fresh `Command(parser, handler)` as created for the terminal token of
`add_subcommand`: the new child parser carries the manually registered
`-h`/`--help` actions (`subcommand_application.py`, lines 76-84), the given
handler, no child-selection sub-parser yet, and no children. -/
def freshCommand (handler : Option Nat) : Cmd :=
  .mk ["-h", "--help"] handler none []

/-- The single-token body of `Command.add_subcommand`
(`subcommand_application.py`, lines 70-88): lazily create the
child-selection sub-parser with `required = (self.handler is None)`, create
a fresh child node, and store it in the child dict (replacing any previous
entry for the same name).  Returns the updated node and the created child. -/
def add_single (c : Cmd) (command : String) (handler : Option Nat) : Cmd × Cmd :=
  let subparserRequired! :=
    match c.subparserRequired with
    | none => some c.handler.isNone
    | some b => some b
  let subcommand := freshCommand handler
  (.mk c.flags c.handler subparserRequired! (dictInsert c.subcommands command subcommand),
    subcommand)

/-- `Command.add_subcommand` (`subcommand_application.py`, lines 67-95) on
the token chain obtained from splitting the command path on `" "` (the
source re-joins and re-splits the remaining tokens at each recursion level,
which round-trips because split pieces contain no separator; the embedding
passes the chain directly).  A missing intermediate hop is first created
via a single-token `add_subcommand` call with no handler, then recursion
continues into it.  Returns the updated tree and the node created for the
terminal token. -/
def add_subcommand (c : Cmd) (chain : List String) (handler : Option Nat) : Cmd × Cmd :=
  match chain with
  | [] => (c, c)  -- unreachable: String.split never produces an empty chain
  | [command] => add_single c command handler
  | next :: second :: rest =>
    let c₁ := if (dictGet? c.subcommands next).isSome then c else (add_single c next none).1
    match dictGet? c₁.subcommands next with
    | some sub =>
      let r := add_subcommand sub (second :: rest) handler
      (.mk c₁.flags c₁.handler c₁.subparserRequired (dictInsert c₁.subcommands next r.1), r.2)
    | none => (c₁, c₁)  -- unreachable: `next` is present in `c₁` by construction

/-- `Command.find_subcommand` (`subcommand_application.py`, lines 54-65) on
the token chain of the command path: look up single tokens directly,
otherwise look up the first hop and recurse; a missing hop raises
`SubcommandNotAvailableError`, embedded as `Except.error ()`. -/
def find_subcommand (c : Cmd) (chain : List String) : Except Unit Cmd :=
  match chain with
  | [] => .error ()  -- unreachable: String.split never produces an empty chain
  | [command] =>
    match dictGet? c.subcommands command with
    | some sub => .ok sub
    | none => .error ()
  | next :: second :: rest =>
    match dictGet? c.subcommands next with
    | some sub => find_subcommand sub (second :: rest)
    | none => .error ()

/-- Reference walker: the node stored at a token path, if every hop exists.
Used to state which paths are registered in a tree. -/
def getPath (c : Cmd) (chain : List String) : Option Cmd :=
  match chain with
  | [] => some c
  | next :: rest =>
    match dictGet? c.subcommands next with
    | some sub => getPath sub rest
    | none => none

/-- Models `node.parser.add_argument(...)` on the node returned by
`add_subcommand` (as the example applications do to declare flags such as
`--start`): the parser of the node at `path` gains the given option
strings; `get_argument_list` in `commands_to_dict`
(`subcommand_application.py`, lines 42-47) later reads them back in
registration order. -/
def add_argument_at (c : Cmd) (path : List String) (optionStrings : List String) : Cmd :=
  match path with
  | [] => .mk (c.flags ++ optionStrings) c.handler c.subparserRequired c.subcommands
  | next :: rest =>
    match dictGet? c.subcommands next with
    | some sub =>
      .mk c.flags c.handler c.subparserRequired
        (dictInsert c.subcommands next (add_argument_at sub rest optionStrings))
    | none => c

theorem find_subcommand_eq_getPath (chain : List String) (c : Cmd) (h : chain ≠ []) :
    find_subcommand c chain =
      match getPath c chain with
      | some n => .ok n
      | none => .error () := by
  induction chain generalizing c with
  | nil => exact absurd rfl h
  | cons next rest ih =>
    cases rest with
    | nil =>
      cases hd : dictGet? c.subcommands next <;>
        simp [find_subcommand, getPath, hd]
    | cons second rest₂ =>
      cases hd : dictGet? c.subcommands next with
      | some sub => simp [find_subcommand, getPath, hd, ih sub (by simp)]
      | none => simp [find_subcommand, getPath, hd]

theorem find_subcommand_nil_subcommands (chain : List String) (c : Cmd)
    (hnil : c.subcommands = []) (h : chain ≠ []) :
    find_subcommand c chain = .error () := by
  cases chain with
  | nil => exact absurd rfl h
  | cons next rest =>
    cases rest <;> simp [find_subcommand, hnil, dictGet?]

theorem add_subcommand_cons₂_of_get (cf : List String) (ch : Option Nat) (cr : Option Bool)
    (cs : List (String × Cmd)) (next second : String) (rest : List String)
    (handler : Option Nat) (sub : Cmd) (hget : dictGet? cs next = some sub) :
    add_subcommand (Cmd.mk cf ch cr cs) (next :: second :: rest) handler =
      (Cmd.mk cf ch cr
        (dictInsert cs next (add_subcommand sub (second :: rest) handler).1),
       (add_subcommand sub (second :: rest) handler).2) := by
  simp [add_subcommand, hget]

theorem add_subcommand_cons₂_of_missing (cf : List String) (ch : Option Nat)
    (cr : Option Bool) (cs : List (String × Cmd)) (next second : String)
    (rest : List String) (handler : Option Nat) (hget : dictGet? cs next = none) :
    add_subcommand (Cmd.mk cf ch cr cs) (next :: second :: rest) handler =
      (Cmd.mk cf ch (match cr with | none => some ch.isNone | some b => some b)
        (dictInsert (dictInsert cs next (freshCommand none)) next
          (add_subcommand (freshCommand none) (second :: rest) handler).1),
       (add_subcommand (freshCommand none) (second :: rest) handler).2) := by
  simp [add_subcommand, hget, add_single, dictGet?_dictInsert_self]

theorem find_add_subcommand (chain : List String) (c : Cmd) (handler : Option Nat)
    (h : chain ≠ []) :
    find_subcommand (add_subcommand c chain handler).1 chain =
      .ok (add_subcommand c chain handler).2 := by
  induction chain generalizing c with
  | nil => exact absurd rfl h
  | cons next rest ih =>
    obtain ⟨cf, ch, cr, cs⟩ := c
    cases rest with
    | nil =>
      simp [add_subcommand, add_single, find_subcommand, dictGet?_dictInsert_self]
    | cons second rest₂ =>
      cases hget : dictGet? cs next with
      | some sub =>
        rw [add_subcommand_cons₂_of_get cf ch cr cs next second rest₂ handler sub hget]
        simp [find_subcommand, dictGet?_dictInsert_self, ih sub (by simp)]
      | none =>
        rw [add_subcommand_cons₂_of_missing cf ch cr cs next second rest₂ handler hget]
        simp [find_subcommand, dictGet?_dictInsert_self, ih (freshCommand none) (by simp)]

/-- C2: for every command path of whitespace-separated tokens of length
n ≥ 1 registered via `add_subcommand`, `find_subcommand` of the same path
returns exactly the node `add_subcommand` created for the terminal token;
and on every path with a hop that is not a registered child at its position
(`getPath … = none`), `find_subcommand` results in the
`SubcommandNotAvailableError` condition, embedded as the recoverable value
`Except.error ()` rather than a crash. -/
theorem registered_path_found_and_missing_hop_recoverable
    (c : Cmd) (chain : List String) (handler : Option Nat) (hne : chain ≠ []) :
    find_subcommand (add_subcommand c chain handler).1 chain =
        .ok (add_subcommand c chain handler).2 ∧
    (∀ badChain, badChain ≠ [] → getPath c badChain = none →
        find_subcommand c badChain = .error ()) := by
  refine ⟨find_add_subcommand chain c handler hne, fun badChain hb hnone => ?_⟩
  rw [find_subcommand_eq_getPath badChain c hb, hnone]

theorem registered_path_found_and_missing_hop_recoverable_witness :
    find_subcommand
        (add_subcommand (Cmd.mk [] (some 0) none []) ["count", "up"] (some 1)).1
        ["count", "up"] =
      .ok (add_subcommand (Cmd.mk [] (some 0) none []) ["count", "up"] (some 1)).2 ∧
    find_subcommand (Cmd.mk [] (some 0) none []) ["count", "down"] = .error () :=
  ⟨(registered_path_found_and_missing_hop_recoverable
      (Cmd.mk [] (some 0) none []) ["count", "up"] (some 1) (by decide)).1,
   (registered_path_found_and_missing_hop_recoverable
      (Cmd.mk [] (some 0) none []) ["count", "up"] (some 1) (by decide)).2
      ["count", "down"] (by decide) rfl⟩

/-!
## The parser-requirement invariant (C3)

`Command.add_subcommand` creates the child-selection sub-parser lazily,
with `required = (self.handler is None)`, on the first `add_subcommand`
call that reaches the node; the handler of a node is fixed at construction
time.  `Built` captures every tree reachable from a fresh root node by
`add_subcommand` and flag declarations; `SubNode` is the descendant
relation; `nodeOk` is the per-node invariant relating the `required` flag
of the sub-parser (when it exists) to handler absence.
-/

inductive Built : Cmd → Prop where
  | root (flags : List String) (handler : Option Nat) : Built (.mk flags handler none [])
  | add (c : Cmd) (chain : List String) (handler : Option Nat) :
      Built c → Built (add_subcommand c chain handler).1
  | addArg (c : Cmd) (path : List String) (optionStrings : List String) :
      Built c → Built (add_argument_at c path optionStrings)

inductive SubNode : Cmd → Cmd → Prop where
  | refl (c : Cmd) : SubNode c c
  | child (c d e : Cmd) (k : String) (hmem : (k, d) ∈ c.subcommands)
      (h : SubNode d e) : SubNode c e

def nodeOk (c : Cmd) : Prop :=
  (∀ b, c.subparserRequired = some b → b = c.handler.isNone) ∧
  (c.subcommands ≠ [] → c.subparserRequired ≠ none)

theorem subNode_of_nil_subcommands (c d : Cmd) (hnil : c.subcommands = [])
    (h : SubNode c d) : d = c := by
  cases h with
  | refl => rfl
  | child _ d₀ _ k hmem _ => rw [hnil] at hmem; cases hmem

theorem nodeOk_freshCommand (handler : Option Nat) (d : Cmd)
    (h : SubNode (freshCommand handler) d) : nodeOk d := by
  have hd : d = freshCommand handler :=
    subNode_of_nil_subcommands _ d (by simp [freshCommand]) h
  subst hd
  exact ⟨by simp [freshCommand], by simp [freshCommand]⟩

theorem nodeOk_child_of_fresh_inserted (cf : List String) (ch : Option Nat)
    (cr : Option Bool) (cs : List (String × Cmd)) (x : String) (handler : Option Nat)
    (H : ∀ d, SubNode (Cmd.mk cf ch cr cs) d → nodeOk d) (k : String) (d₀ d : Cmd)
    (hmem : (k, d₀) ∈ dictInsert cs x (freshCommand handler)) (hs : SubNode d₀ d) :
    nodeOk d := by
  rcases mem_dictInsert _ _ _ _ hmem with h1 | h1
  · have hd₀ : d₀ = freshCommand handler := congrArg Prod.snd h1
    subst hd₀
    exact nodeOk_freshCommand handler d hs
  · exact H d (SubNode.child _ d₀ d k (by simpa using h1) hs)

theorem nodeOk_all_add_single (c : Cmd) (x : String) (handler : Option Nat)
    (H : ∀ d, SubNode c d → nodeOk d) :
    ∀ d, SubNode (add_single c x handler).1 d → nodeOk d := by
  obtain ⟨cf, ch, cr, cs⟩ := c
  have hself := H _ (SubNode.refl _)
  intro d hd
  cases cr with
  | none =>
    have hd' : SubNode (Cmd.mk cf ch (some ch.isNone)
        (dictInsert cs x (freshCommand handler))) d := by
      simpa [add_single] using hd
    cases hd' with
    | refl =>
      refine ⟨?_, by intro _; simp⟩
      intro b hb
      simp at hb
      simp [hb]
    | child _ d₀ _ k hmem hs =>
      exact nodeOk_child_of_fresh_inserted cf ch none cs x handler H k d₀ d
        (by simpa using hmem) hs
  | some b₀ =>
    have hd' : SubNode (Cmd.mk cf ch (some b₀)
        (dictInsert cs x (freshCommand handler))) d := by
      simpa [add_single] using hd
    cases hd' with
    | refl =>
      refine ⟨?_, by intro _; simp⟩
      intro b hb
      simp at hb
      subst hb
      simpa using hself.1 b₀ (by simp)
    | child _ d₀ _ k hmem hs =>
      exact nodeOk_child_of_fresh_inserted cf ch (some b₀) cs x handler H k d₀ d
        (by simpa using hmem) hs

/-- Helper for the step cases of the invariant proof: if every descendant of
`Cmd.mk cf ch cr cs` satisfies `nodeOk` and `cs` holds key `next` with value
`sub`, then replacing the entry of `next` by any tree whose descendants all
satisfy `nodeOk` keeps the invariant everywhere. -/
theorem nodeOk_all_replace_child (cf : List String) (ch : Option Nat) (cr : Option Bool)
    (cs : List (String × Cmd)) (next : String) (sub repl : Cmd)
    (H : ∀ d, SubNode (Cmd.mk cf ch cr cs) d → nodeOk d)
    (hget : dictGet? cs next = some sub)
    (Hrepl : ∀ d, SubNode repl d → nodeOk d) :
    ∀ d, SubNode (Cmd.mk cf ch cr (dictInsert cs next repl)) d → nodeOk d := by
  intro d hsub
  cases hsub with
  | refl =>
    obtain ⟨h1, h2⟩ := H _ (SubNode.refl _)
    refine ⟨by simpa using h1, ?_⟩
    intro _
    have hne : cs ≠ [] := by
      intro hcon
      rw [hcon] at hget
      simp [dictGet?] at hget
    simpa using h2 (by simpa using hne)
  | child _ d₀ _ k hmem hs =>
    rcases mem_dictInsert _ _ _ _ (by simpa using hmem) with h1 | h1
    · have hd₀ : d₀ = repl := congrArg Prod.snd h1
      subst hd₀
      exact Hrepl d hs
    · exact H d (SubNode.child _ d₀ d k (by simpa using h1) hs)

theorem nodeOk_all_add_subcommand (chain : List String) (c : Cmd) (handler : Option Nat)
    (H : ∀ d, SubNode c d → nodeOk d) :
    ∀ d, SubNode (add_subcommand c chain handler).1 d → nodeOk d := by
  induction chain generalizing c with
  | nil => simpa [add_subcommand] using H
  | cons next rest ih =>
    cases rest with
    | nil => simpa [add_subcommand] using nodeOk_all_add_single c next handler H
    | cons second rest₂ =>
      obtain ⟨cf, ch, cr, cs⟩ := c
      cases hget : dictGet? cs next with
      | some sub =>
        rw [add_subcommand_cons₂_of_get cf ch cr cs next second rest₂ handler sub hget]
        have Hsub : ∀ d, SubNode sub d → nodeOk d := fun d hs =>
          H d (SubNode.child _ sub d next (by simpa using dictGet?_mem _ _ _ hget) hs)
        exact nodeOk_all_replace_child cf ch cr cs next sub _ H hget (ih sub Hsub)
      | none =>
        rw [add_subcommand_cons₂_of_missing cf ch cr cs next second rest₂ handler hget]
        have H₁ : ∀ d, SubNode (Cmd.mk cf ch
            (match cr with | none => some (Option.isNone ch) | some b => some b)
            (dictInsert cs next (freshCommand none))) d → nodeOk d := by
          have := nodeOk_all_add_single (Cmd.mk cf ch cr cs) next none H
          simpa [add_single] using this
        exact nodeOk_all_replace_child cf ch _ (dictInsert cs next (freshCommand none))
          next (freshCommand none) _ H₁ (dictGet?_dictInsert_self _ _ _)
          (ih (freshCommand none) (nodeOk_freshCommand none))

theorem nodeOk_all_add_argument_at (path : List String) (c : Cmd)
    (optionStrings : List String) (H : ∀ d, SubNode c d → nodeOk d) :
    ∀ d, SubNode (add_argument_at c path optionStrings) d → nodeOk d := by
  induction path generalizing c with
  | nil =>
    obtain ⟨cf, ch, cr, cs⟩ := c
    intro d hd
    have hd' : SubNode (Cmd.mk (cf ++ optionStrings) ch cr cs) d := by
      simpa [add_argument_at] using hd
    cases hd' with
    | refl =>
      obtain ⟨h1, h2⟩ := H _ (SubNode.refl _)
      exact ⟨by simpa using h1, by simpa using h2⟩
    | child _ d₀ _ k hmem hs =>
      exact H d (SubNode.child _ d₀ d k (by simpa using hmem) hs)
  | cons next rest ih =>
    obtain ⟨cf, ch, cr, cs⟩ := c
    cases hget : dictGet? cs next with
    | none => intro d hsub; exact H d (by simpa [add_argument_at, hget] using hsub)
    | some sub =>
      have Hsub : ∀ d, SubNode sub d → nodeOk d := fun d hs =>
        H d (SubNode.child _ sub d next (by simpa using dictGet?_mem _ _ _ hget) hs)
      have step : add_argument_at (Cmd.mk cf ch cr cs) (next :: rest) optionStrings =
          Cmd.mk cf ch cr (dictInsert cs next (add_argument_at sub rest optionStrings)) := by
        simp [add_argument_at, hget]
      rw [step]
      exact nodeOk_all_replace_child cf ch cr cs next sub _ H hget (ih sub Hsub)

theorem built_nodeOk (c : Cmd) (hb : Built c) : ∀ d, SubNode c d → nodeOk d := by
  induction hb with
  | root flags handler =>
    intro d hd
    have : d = Cmd.mk flags handler none [] :=
      subNode_of_nil_subcommands _ d (by simp) hd
    subst this
    exact ⟨by simp, by simp⟩
  | add c chain handler _ ih => exact nodeOk_all_add_subcommand chain c handler ih
  | addArg c path optionStrings _ ih => exact nodeOk_all_add_argument_at path c optionStrings ih

/-- C3 (amended): over every command tree produced by a sequence of
`add_subcommand` (and flag-declaration) calls from a fresh root, every node
that has at least one child carries a child-selection sub-parser whose
`required` flag equals handler absence — so a handler-less node with
children requires selection of exactly one child when parsed
non-interactively, while a node with a handler never requires child
selection.  (The original claim is amended by restricting its first half
to nodes with at least one child: a handler-less node that never received
a child has no child-selection sub-parser at all, see the counterexample.) -/
theorem child_selection_requirement (c d : Cmd) (hb : Built c) (hsub : SubNode c d) :
    (d.subcommands ≠ [] → d.subparserRequired = some d.handler.isNone) ∧
    (d.handler.isSome = true → d.subparserRequired ≠ some true) := by
  obtain ⟨h1, h2⟩ := built_nodeOk c hb d hsub
  constructor
  · intro hne
    cases hr : d.subparserRequired with
    | none => exact absurd hr (h2 hne)
    | some b => rw [h1 b hr]
  · intro hs hcon
    have htrue := h1 true hcon
    cases hh : d.handler with
    | none => rw [hh] at hs; simp at hs
    | some v => rw [hh] at htrue; simp at htrue

def c3BuiltTree : Cmd := (add_subcommand (Cmd.mk [] none none []) ["count", "up"] (some 5)).1

theorem child_selection_requirement_witness :
    c3BuiltTree.subparserRequired = some true := by
  have h := (child_selection_requirement c3BuiltTree c3BuiltTree
      (Built.add (Cmd.mk [] none none []) ["count", "up"] (some 5) (Built.root [] none))
      (SubNode.refl _)).1
      (fun hcon => absurd (congrArg List.length hcon) (by decide))
  exact h.trans rfl

def c3LeafTree : Cmd := (add_subcommand (Cmd.mk [] none none []) ["solo"] none).1

def c3LeafNode : Cmd := (add_subcommand (Cmd.mk [] none none []) ["solo"] none).2

/-- C3 counterexample: registering the single-token command `"solo"` with no
handler (`handler` defaults to `None` in `Command.add_subcommand`,
`subcommand_application.py` line 67, `subcommands.py` line 51) produces a
node that never received a handler and whose parser was never given a
child-selection sub-parser (`subparser` stays `None`, so nothing requires
selecting a child when it is parsed non-interactively) — contradicting the
claim that every node without a handler requires selection of exactly one
child. -/
theorem handlerless_leaf_requires_no_child :
    Built c3LeafTree ∧
    getPath c3LeafTree ["solo"] = some c3LeafNode ∧
    c3LeafNode.handler = none ∧
    c3LeafNode.subparserRequired = none :=
  ⟨Built.add (Cmd.mk [] none none []) ["solo"] none (Built.root [] none), rfl, rfl, rfl⟩

/-- C10: calling `add_subcommand` with a terminal token that is already
present as a child does not return or extend the existing child node: it
unconditionally creates a fresh node (with the newly registered child
parser and no children) and replaces the dict entry for that token, so
every path extending the token — in particular every descendant previously
registered under it — is no longer reachable: `find_subcommand` now raises
`SubcommandNotAvailableError` on it. -/
theorem add_subcommand_replaces_existing_child (c : Cmd) (t : String) (handler : Option Nat)
    (hex : (dictGet? c.subcommands t).isSome = true) :
    dictGet? (add_subcommand c [t] handler).1.subcommands t =
        some (add_subcommand c [t] handler).2 ∧
    (add_subcommand c [t] handler).2 = freshCommand handler ∧
    ∀ rest, rest ≠ [] →
      find_subcommand (add_subcommand c [t] handler).1 (t :: rest) = .error () := by
  obtain ⟨cf, ch, cr, cs⟩ := c
  refine ⟨by simp [add_subcommand, add_single, dictGet?_dictInsert_self],
    by simp [add_subcommand, add_single], ?_⟩
  intro rest hrest
  cases rest with
  | nil => exact absurd rfl hrest
  | cons y rest₂ =>
    have hstep : find_subcommand (add_subcommand (Cmd.mk cf ch cr cs) [t] handler).1
        (t :: y :: rest₂) = find_subcommand (freshCommand handler) (y :: rest₂) := by
      simp [add_subcommand, add_single, find_subcommand, dictGet?_dictInsert_self]
    rw [hstep, find_subcommand_nil_subcommands _ _ (by simp [freshCommand]) (by simp)]

def c10Base : Cmd := (add_subcommand (Cmd.mk [] (some 0) none []) ["a", "b"] (some 1)).1

theorem add_subcommand_replaces_existing_child_witness :
    find_subcommand c10Base ["a", "b"] = .ok (freshCommand (some 1)) ∧
    find_subcommand (add_subcommand c10Base ["a"] (some 2)).1 ["a", "b"] = .error () :=
  ⟨rfl, (add_subcommand_replaces_existing_child c10Base "a" (some 2) rfl).2.2 ["b"]
    (by decide)⟩

/-!
## Completion dictionaries (C4)

`Command.commands_to_dict` (`subcommand_application.py`, lines 40-52)
produces the nested completion structure: the dict of child names mapped
to their own `commands_to_dict()` results, merged (`|`) with a dict
mapping each option string of the node's parser actions
(`get_argument_list`, lines 42-47) to `None`; an empty merged dict is
returned as `None` (the absence marker), mirroring
`return merged_dict if len(merged_dict) else None`.
-/

inductive CmdDict where
  | mk (entries : List (String × Option CmdDict))

def CmdDict.entries : CmdDict → List (String × Option CmdDict)
  | .mk e => e

mutual

def commands_to_dict : Cmd → Option CmdDict
  | .mk flags _ _ subcommands =>
    let command_dict := commands_to_dict_entries subcommands
    let argument_dict := flags.map (fun argument => (argument, (none : Option CmdDict)))
    let merged_dict := dictMerge command_dict argument_dict
    if merged_dict.isEmpty then none else some (.mk merged_dict)

def commands_to_dict_entries : List (String × Cmd) → List (String × Option CmdDict)
  | [] => []
  | (name, sub) :: rest => (name, commands_to_dict sub) :: commands_to_dict_entries rest

end

/-- Lookup in the result of `commands_to_dict`: `none` for the absence
marker (no completion dict at all), otherwise a dict lookup. -/
def cmdDictGet? : Option CmdDict → String → Option (Option CmdDict)
  | none, _ => none
  | some (.mk entries), k => dictGet? entries k

theorem dictGet?_commands_to_dict_entries (subs : List (String × Cmd)) (k : String) :
    dictGet? (commands_to_dict_entries subs) k =
      (dictGet? subs k).map commands_to_dict := by
  induction subs with
  | nil => simp [commands_to_dict_entries, dictGet?]
  | cons hd tl ih =>
    obtain ⟨name, sub⟩ := hd
    by_cases h0 : name = k <;> simp [commands_to_dict_entries, dictGet?, h0, ih]

theorem commands_to_dict_entries_eq_nil_iff (subs : List (String × Cmd)) :
    commands_to_dict_entries subs = [] ↔ subs = [] := by
  cases subs with
  | nil => simp [commands_to_dict_entries]
  | cons hd tl => obtain ⟨name, sub⟩ := hd; simp [commands_to_dict_entries]

/-- The root node of a shell-enabled `SubcommandApplication`: the top-level
argument parser carries the reserved framework flags
(`generic_application.py`, lines 228-282) and the root command holds the
shell handler. -/
def c4Root : Cmd :=
  Cmd.mk ["-h", "--help", "-v", "--version", "-vv", "--verbose", "-q", "--quiet",
    "--logging-config", "--logging-dir", "-c", "--config"] (some 0) none []

/-- A tree with one subcommand `"count up"` whose node declares `--start`. -/
def c4Tree : Cmd :=
  add_argument_at (add_subcommand c4Root ["count", "up"] (some 1)).1 ["count", "up"]
    ["--start"]

/-- C4: `commands_to_dict()` returns exactly the union of (a) the mapping
from each child command name to that child's own `commands_to_dict()`
result and (b) the mapping from each of the node's own declared flags to
the absence marker (flags winning on a key clash, as the right operand of
the Python dict merge), with the whole result collapsing to the absence
marker exactly when the node has neither children nor flags; in
particular, on a tree with one subcommand `"count up"` taking flag
`--start`, the result exposes `"count"` mapping to `"up"` mapping to a
dict containing `--start` mapped to the absence marker. -/
theorem commands_to_dict_spec :
    (∀ (c : Cmd) (k : String),
      cmdDictGet? (commands_to_dict c) k =
        if k ∈ c.flags then some none
        else (dictGet? c.subcommands k).map commands_to_dict) ∧
    (∀ c : Cmd, commands_to_dict c = none ↔ c.subcommands = [] ∧ c.flags = []) ∧
    cmdDictGet?
        ((cmdDictGet?
          ((cmdDictGet? (commands_to_dict c4Tree) "count").join) "up").join)
        "--start" = some none := by
  have hmain : ∀ (c : Cmd) (k : String),
      cmdDictGet? (commands_to_dict c) k =
        if k ∈ c.flags then some none
        else (dictGet? c.subcommands k).map commands_to_dict := by
    intro c k
    obtain ⟨cf, ch, cr, cs⟩ := c
    by_cases hempty :
        (dictMerge (commands_to_dict_entries cs)
          (cf.map (fun argument => (argument, (none : Option CmdDict))))).isEmpty
    · have hnil := (dictMerge_eq_nil_iff _ _).mp (by simpa using hempty)
      have hcs : cs = [] := (commands_to_dict_entries_eq_nil_iff cs).mp hnil.1
      have hcf : cf = [] := by simpa using hnil.2
      subst hcs; subst hcf
      simp [commands_to_dict, cmdDictGet?, dictGet?, dictMerge, commands_to_dict_entries]
    · have hres : commands_to_dict (Cmd.mk cf ch cr cs) =
          some (.mk (dictMerge (commands_to_dict_entries cs)
            (cf.map (fun argument => (argument, (none : Option CmdDict)))))) := by
        simp [commands_to_dict, hempty]
      rw [hres]
      simp [cmdDictGet?, dictGet?_dictMerge_mapConst, dictGet?_commands_to_dict_entries]
  refine ⟨hmain, ?_, ?_⟩
  · intro c
    obtain ⟨cf, ch, cr, cs⟩ := c
    constructor
    · intro h
      by_cases hempty :
          (dictMerge (commands_to_dict_entries cs)
            (cf.map (fun argument => (argument, (none : Option CmdDict))))).isEmpty
      · have hnil := (dictMerge_eq_nil_iff _ _).mp (by simpa using hempty)
        exact ⟨by simpa using (commands_to_dict_entries_eq_nil_iff cs).mp hnil.1,
          by simpa using hnil.2⟩
      · simp [commands_to_dict, hempty] at h
    · rintro ⟨h1, h2⟩
      have hcs : cs = [] := by simpa using h1
      have hcf : cf = [] := by simpa using h2
      subst hcs; subst hcf
      simp [commands_to_dict, dictMerge, commands_to_dict_entries]
  · rfl

/-!
## Configuration-file resolution (C5)

`GenericApplication.find_file` (`generic_application.py`, lines 337-344)
iterates search directories in the outer loop and filenames in the inner
loop and returns the first combination that exists; the surrounding
resolution logic (`find_application_config_filepath`, lines 422-431, and
`find_logging_config_filepath`, lines 379-388, which share the same shape)
prefers a truthy CLI argument, then an explicitly constructed path, then
the search.  The filesystem is embedded as a boolean existence predicate
on path strings; `Path` division is string concatenation with `/`.
-/

def pathJoin (dir filename : String) : String := dir ++ "/" ++ filename

/-- Python truthiness of an optional string (`if self._args.config:`):
`None` and the empty string are falsy. -/
def pyStrTruthy : Option String → Bool
  | none => false
  | some s => !s.isEmpty

def find_file_inner (fileExists : String → Bool) (search_path : String) :
    List String → Option String
  | [] => none
  | filename :: rest =>
    let potential_filepath := pathJoin search_path filename
    if fileExists potential_filepath then some potential_filepath
    else find_file_inner fileExists search_path rest

def find_file (fileExists : String → Bool) :
    List String → List String → Option String
  | [], _ => none
  | search_path :: rest, filenames =>
    match find_file_inner fileExists search_path filenames with
    | some p => some p
    | none => find_file fileExists rest filenames

inductive ConfigFilepathSource where
  | CLI_ARG
  | EXPLICIT
  | SEARCH
deriving DecidableEq

/-- The shared three-tier resolution of `find_application_config_filepath`
and `find_logging_config_filepath`: a truthy CLI argument wins, then an
explicit constructor-supplied path (a `Path` object, truthy whenever
present), then the directory × filename search. -/
def find_config_filepath (cliArg : Option String) (explicitPath : Option String)
    (fileExists : String → Bool) (search_paths search_filenames : List String) :
    Option String × ConfigFilepathSource :=
  if pyStrTruthy cliArg then (cliArg, .CLI_ARG)
  else
    match explicitPath with
    | some p => (some p, .EXPLICIT)
    | none => (find_file fileExists search_paths search_filenames, .SEARCH)

theorem find_file_inner_eq_find? (fileExists : String → Bool) (sp : String)
    (filenames : List String) :
    find_file_inner fileExists sp filenames =
      (filenames.map (pathJoin sp)).find? fileExists := by
  induction filenames with
  | nil => simp [find_file_inner]
  | cons f fns₂ ih₂ =>
    by_cases hex : fileExists (pathJoin sp f) <;>
      simp [find_file_inner, List.find?, hex, ih₂]

theorem find_file_eq_first_match (fileExists : String → Bool)
    (search_paths filenames : List String) :
    find_file fileExists search_paths filenames =
      ((search_paths.map (fun d => filenames.map (pathJoin d))).flatten).find?
        fileExists := by
  induction search_paths with
  | nil => simp [find_file]
  | cons sp rest ih =>
    cases hfirst : find_file_inner fileExists sp filenames with
    | some p =>
      have h1 : (filenames.map (pathJoin sp)).find? fileExists = some p := by
        rw [← find_file_inner_eq_find?]; exact hfirst
      simp [find_file, hfirst, List.find?_append, h1, Option.or]
    | none =>
      have h1 : (filenames.map (pathJoin sp)).find? fileExists = none := by
        rw [← find_file_inner_eq_find?]; exact hfirst
      simp [find_file, hfirst, ih, List.find?_append, h1, Option.or]

/-- C5: configuration-file resolution (application config and logging
config share this logic) returns the first existing candidate in the fixed
precedence order — a truthy CLI-supplied path, else the
constructor-supplied path, else the search with directories as the outer
loop and filenames as the inner loop, first existing file winning,
regardless of which lower-precedence candidates exist; in particular with
directories `[D1, D2]`, filenames `[F1, F2]` and files existing exactly at
`D1/F2` and `D2/F1`, the search returns `D1/F2`. -/
theorem config_resolution_precedence :
    (∀ (cliArg explicitPath : Option String) (fileExists : String → Bool)
        (search_paths search_filenames : List String),
      pyStrTruthy cliArg = true →
        find_config_filepath cliArg explicitPath fileExists search_paths search_filenames =
          (cliArg, .CLI_ARG)) ∧
    (∀ (explicitPath : String) (fileExists : String → Bool)
        (search_paths search_filenames : List String),
      find_config_filepath none (some explicitPath) fileExists search_paths
          search_filenames = (some explicitPath, .EXPLICIT)) ∧
    (∀ (fileExists : String → Bool) (search_paths search_filenames : List String),
      find_config_filepath none none fileExists search_paths search_filenames =
        (find_file fileExists search_paths search_filenames, .SEARCH)) ∧
    (∀ (fileExists : String → Bool) (search_paths search_filenames : List String),
      find_file fileExists search_paths search_filenames =
        ((search_paths.map (fun d => search_filenames.map (pathJoin d))).flatten).find?
          fileExists) ∧
    find_file (fun p => p == "D1/F2" || p == "D2/F1") ["D1", "D2"] ["F1", "F2"] =
      some "D1/F2" := by
  refine ⟨?_, ?_, ?_, find_file_eq_first_match, rfl⟩
  · intro cliArg explicitPath fileExists sp fn htruthy
    simp [find_config_filepath, htruthy]
  · intro ep fileExists sp fn
    simp [find_config_filepath, pyStrTruthy]
  · intro fileExists sp fn
    simp [find_config_filepath, pyStrTruthy]

theorem config_resolution_precedence_witness :
    find_config_filepath (some "/cli/config.json") (some "/ctor/config.json")
        (fun _ => true) ["D1"] ["F1"] = (some "/cli/config.json", .CLI_ARG) :=
  config_resolution_precedence.1 (some "/cli/config.json") (some "/ctor/config.json")
    (fun _ => true) ["D1"] ["F1"] rfl

/-!
## Logging finalization (C9)

`__get_logfile_filepath` (`generic_application.py`, lines 315-335)
computes the log-file destination: the output directory is the truthy
`--logging-dir` CLI value, else the constructor-supplied
`logging_logfile_output_dir` (a `Path`, truthy whenever present), else the
current working directory; the filename is the truthy constructor-supplied
`logging_logfile_filename`, else `"{timestamp}_{application_name}.log"`;
the directory is created (`mkdir(parents=True, exist_ok=True)`) before the
two are joined.  `__set_file_handler_filename` (lines 358-363) then
overwrites the `filename` entry of every handler of the document whose
`class` entry equals `"logging.FileHandler"`, leaving every other handler
untouched.
-/

/-- One handler entry of the logging configuration document: its optional
`class` and `filename` entries, plus the remaining entries, which
`__set_file_handler_filename` never touches. -/
structure LogHandler where
  cls : Option String
  filename : Option String
  otherEntries : List (String × String)
deriving DecidableEq

/-- The logging configuration document, reduced to the parts
`__set_file_handler_filename` reads or writes: the optional `handlers`
section and the remaining sections (`loggers`, `root`, `version`, …). -/
structure LoggingConfigDict where
  handlers : Option (List (String × LogHandler))
  otherSections : List (String × String)
deriving DecidableEq

def set_file_handler_filename (config_dict : LoggingConfigDict)
    (logfile_filepath : String) : LoggingConfigDict :=
  match config_dict.handlers with
  | some hs =>
    { config_dict with
      handlers := some (hs.map (fun kv =>
        (kv.1,
          if kv.2.cls = some "logging.FileHandler" then
            { kv.2 with filename := some logfile_filepath }
          else kv.2))) }
  | none => config_dict

def get_logfile_output_dir (cliLoggingDir cfgOutputDir : Option String)
    (cwd : String) : String :=
  if pyStrTruthy cliLoggingDir then cliLoggingDir.getD ""
  else
    match cfgOutputDir with
    | some d => d
    | none => cwd

def get_logfile_filename (cfgFilename : Option String)
    (timestamp application_name : String) : String :=
  if pyStrTruthy cfgFilename then cfgFilename.getD ""
  else timestamp ++ "_" ++ application_name ++ ".log"

/-- Result of `__get_logfile_filepath`: the directory on which `mkdir` is
invoked and the joined path that is returned. -/
structure LogfilePathResult where
  mkdirDir : String
  filepath : String
deriving DecidableEq

def get_logfile_filepath (cliLoggingDir cfgOutputDir : Option String) (cwd : String)
    (cfgFilename : Option String) (timestamp application_name : String) :
    LogfilePathResult :=
  let logfile_output_dir := get_logfile_output_dir cliLoggingDir cfgOutputDir cwd
  let logfile_filename := get_logfile_filename cfgFilename timestamp application_name
  { mkdirDir := logfile_output_dir,
    filepath := pathJoin logfile_output_dir logfile_filename }

/-- Handlers section of a document, defaulting to the empty dict when the
section is absent. -/
def handlersOf (config_dict : LoggingConfigDict) : List (String × LogHandler) :=
  config_dict.handlers.getD []

/-- C9: logging finalization overwrites the `filename` field of exactly the
file-writing handlers (`class == "logging.FileHandler"`) of the document
with the computed log-file path, leaving all other handlers — and every
other part of the document — unchanged; and the computed path is the
CLI-specified directory, else the constructor-specified directory, else
the current working directory, joined with the constructor-specified
filename or else the timestamp-plus-application-name default, the chosen
directory being the one that gets created if absent. -/
theorem logging_finalization_spec :
    (∀ (config_dict : LoggingConfigDict) (p : String) (k : String),
      dictGet? (handlersOf (set_file_handler_filename config_dict p)) k =
        (dictGet? (handlersOf config_dict) k).map (fun h =>
          if h.cls = some "logging.FileHandler" then { h with filename := some p }
          else h)) ∧
    (∀ (config_dict : LoggingConfigDict) (p : String),
      (set_file_handler_filename config_dict p).otherSections =
        config_dict.otherSections) ∧
    (∀ (config_dict : LoggingConfigDict) (p : String),
      config_dict.handlers = none → set_file_handler_filename config_dict p = config_dict) ∧
    (∀ (d : String) (cfgOutputDir : Option String) (cwd : String), d ≠ "" →
      get_logfile_output_dir (some d) cfgOutputDir cwd = d) ∧
    (∀ (d : String) (cwd : String), get_logfile_output_dir none (some d) cwd = d) ∧
    (∀ cwd : String, get_logfile_output_dir none none cwd = cwd) ∧
    (∀ (fn : String) (timestamp application_name : String), fn ≠ "" →
      get_logfile_filename (some fn) timestamp application_name = fn) ∧
    (∀ timestamp application_name : String,
      get_logfile_filename none timestamp application_name =
        timestamp ++ "_" ++ application_name ++ ".log") ∧
    (∀ (cliLoggingDir cfgOutputDir : Option String) (cwd : String)
        (cfgFilename : Option String) (timestamp application_name : String),
      get_logfile_filepath cliLoggingDir cfgOutputDir cwd cfgFilename timestamp
          application_name =
        { mkdirDir := get_logfile_output_dir cliLoggingDir cfgOutputDir cwd,
          filepath := pathJoin (get_logfile_output_dir cliLoggingDir cfgOutputDir cwd)
            (get_logfile_filename cfgFilename timestamp application_name) }) := by
  refine ⟨?_, ?_, ?_, ?_, ?_, ?_, ?_, ?_, ?_⟩
  · intro config_dict p k
    obtain ⟨hs, os⟩ := config_dict
    cases hs with
    | none => simp [set_file_handler_filename, handlersOf, dictGet?]
    | some l =>
      simp only [set_file_handler_filename, handlersOf, Option.getD]
      induction l with
      | nil => simp [dictGet?]
      | cons hd tl ih =>
        obtain ⟨k₀, h₀⟩ := hd
        by_cases h0 : k₀ = k <;> simp [dictGet?, h0, ih]
  · intro config_dict p
    obtain ⟨hs, os⟩ := config_dict
    cases hs <;> simp [set_file_handler_filename]
  · intro config_dict p hnone
    simp [set_file_handler_filename, hnone]
  · intro d cfgOutputDir cwd hne
    simp [get_logfile_output_dir, pyStrTruthy, String.isEmpty_iff, hne]
  · intro d cwd
    simp [get_logfile_output_dir, pyStrTruthy]
  · intro cwd
    simp [get_logfile_output_dir, pyStrTruthy]
  · intro fn timestamp application_name hne
    simp [get_logfile_filename, pyStrTruthy, String.isEmpty_iff, hne]
  · intro timestamp application_name
    simp [get_logfile_filename, pyStrTruthy]
  · intro cliLoggingDir cfgOutputDir cwd cfgFilename timestamp application_name
    rfl

theorem logging_finalization_spec_witness :
    dictGet?
        (handlersOf (set_file_handler_filename
          { handlers := some [("file", ⟨some "logging.FileHandler", some "old.log", []⟩),
              ("console", ⟨some "logging.StreamHandler", none, []⟩)],
            otherSections := [("version", "1")] }
          "/logs/x.log"))
        "file" = some ⟨some "logging.FileHandler", some "/logs/x.log", []⟩ ∧
    get_logfile_output_dir (some "/cli/logs") (some "/ctor/logs") "/cwd" = "/cli/logs" :=
  ⟨(logging_finalization_spec.1
      { handlers := some [("file", ⟨some "logging.FileHandler", some "old.log", []⟩),
          ("console", ⟨some "logging.StreamHandler", none, []⟩)],
        otherSections := [("version", "1")] }
      "/logs/x.log" "file").trans (by rfl),
    logging_finalization_spec.2.2.2.1 "/cli/logs" (some "/ctor/logs") "/cwd"
      (by decide)⟩

/-!
## Logging activation control flow (C1)

`__init_custom_logging` (`generic_application.py`, lines 378-407): when a
custom logging configuration file is resolved, its activation is attempted
under `try`; the caught exception kinds (`ValueError`, `TypeError`,
`AttributeError`, `ImportError` — what `logging.config.dictConfig` raises
for malformed documents, unknown handler classes, etc.) lead to
`__init_default_logging()` (so the error message is visible), two error
logs, and `self.__exit(error=True)`, i.e. `sys.exit(-1)`; other exception
kinds propagate.  When no custom file is resolved, `__init_default_logging`
runs instead and the method returns normally.  `__init_default_logging`
(lines 409-419) activates the default configuration with no `try` at all:
any failure propagates.  Activation outcomes are embedded as a function
from the configuration path to an `ActivationResult`.
-/

inductive LoggingConfigType where
  | DEFAULT
  | CUSTOM
deriving DecidableEq

/-- Outcome of `__init_logging` on one configuration file: success, an
exception of one of the kinds caught by `__init_custom_logging`, or an
exception of any other kind. -/
inductive ActivationResult where
  | ok
  | errCaught
  | errOther
deriving DecidableEq

/-- Outcome of a logging-initialization method: it returns normally and
startup continues with the given configuration type; or it calls
`self.__exit(error=True)` (i.e. `sys.exit(-1)`, terminating startup with a
non-zero status); or an exception propagates out of it (terminating
startup with status `-1` via the generic handler in `start`). -/
inductive LoggingInitOutcome where
  | continues (t : LoggingConfigType)
  | exitsError
  | raises
deriving DecidableEq

def init_default_logging (activate : String → ActivationResult)
    (defaultPath : String) : LoggingInitOutcome :=
  match activate defaultPath with
  | .ok => .continues .DEFAULT
  | .errCaught => .raises
  | .errOther => .raises

def init_custom_logging (customResolved : Option String)
    (activate : String → ActivationResult) (defaultPath : String) : LoggingInitOutcome :=
  match customResolved with
  | some p =>
    match activate p with
    | .ok => .continues .CUSTOM
    | .errCaught =>
      match init_default_logging activate defaultPath with
      | .continues _ => .exitsError
      | _ => .raises
    | .errOther => .raises
  | none => init_default_logging activate defaultPath

/-- C1 counterexample: an application whose custom logging configuration
file `custom.yaml` is resolved but fails to activate with one of the
caught exception kinds (e.g. a malformed document), while the default
configuration activates fine.  `__init_custom_logging` activates default
logging only to report the error and then calls `self.__exit(error=True)`
— startup terminates with a non-zero status instead of continuing, so the
failure is not recoverable as the claim states. -/
theorem custom_logging_failure_counterexample :
    init_custom_logging (some "custom.yaml")
        (fun p => if p == "custom.yaml" then .errCaught else .ok) "default.yaml" =
      .exitsError ∧
    LoggingInitOutcome.exitsError ≠ .continues .DEFAULT ∧
    LoggingInitOutcome.exitsError ≠ .continues .CUSTOM :=
  ⟨rfl, by decide, by decide⟩

/-- C1 (amended): when the custom logging configuration file is resolved
but activation fails, the failure is fatal: startup never continues (the
default configuration is activated only so that the error is visible,
after which the process exits with a non-zero status, or the error
propagates).  The recoverable fallback to the default, built-in
configuration happens exactly when no custom configuration file is
resolved; activation failure on the default configuration itself
propagates and is likewise fatal. -/
theorem custom_logging_failure_fatal (customResolved : Option String)
    (activate : String → ActivationResult) (defaultPath : String) :
    (∀ p, customResolved = some p → activate p ≠ .ok →
      init_custom_logging customResolved activate defaultPath ≠ .continues .CUSTOM ∧
      init_custom_logging customResolved activate defaultPath ≠ .continues .DEFAULT) ∧
    (∀ p, customResolved = some p → activate p = .errCaught →
        activate defaultPath = .ok →
      init_custom_logging customResolved activate defaultPath = .exitsError) ∧
    (customResolved = none → activate defaultPath = .ok →
      init_custom_logging customResolved activate defaultPath = .continues .DEFAULT) ∧
    (∀ p, customResolved = some p → activate p = .ok →
      init_custom_logging customResolved activate defaultPath = .continues .CUSTOM) ∧
    (customResolved = none → activate defaultPath ≠ .ok →
      init_custom_logging customResolved activate defaultPath = .raises) := by
  refine ⟨?_, ?_, ?_, ?_, ?_⟩
  · rintro p rfl hfail
    cases hact : activate p with
    | ok => exact absurd hact hfail
    | errCaught =>
      cases hdef : init_default_logging activate defaultPath with
      | continues t => simp [init_custom_logging, hact, hdef]
      | exitsError => simp [init_custom_logging, hact, hdef]
      | raises => simp [init_custom_logging, hact, hdef]
    | errOther => simp [init_custom_logging, hact]
  · rintro p rfl hcaught hdef
    simp [init_custom_logging, hcaught, init_default_logging, hdef]
  · rintro rfl hdef
    simp [init_custom_logging, init_default_logging, hdef]
  · rintro p rfl hok
    simp [init_custom_logging, hok]
  · rintro rfl hfail
    cases hdef : activate defaultPath with
    | ok => exact absurd hdef hfail
    | errCaught => simp [init_custom_logging, init_default_logging, hdef]
    | errOther => simp [init_custom_logging, init_default_logging, hdef]

theorem custom_logging_failure_fatal_witness :
    init_custom_logging (some "c.yaml") (fun _ => .errCaught) "d.yaml" ≠
      .continues .CUSTOM :=
  ((custom_logging_failure_fatal (some "c.yaml") (fun _ => .errCaught) "d.yaml").1
    "c.yaml" rfl (by decide)).1

/-!
## Top-level status policy of `start` (C6)

`GenericApplication.start` (`generic_application.py`, lines 579-605) wraps
the three init stages and the call into the application's `run` method in
one `try`: `KeyboardInterrupt` yields `0`; `SystemExit` yields the carried
code when it is an `int` and otherwise falls through to `-1`; any other
exception is logged and yields `-1`; a normal `run` return yields
`ret if ret else 0`.  The body's outcome is embedded as the exception (if
any) escaping the init stages together with the result of `run`.
-/

/-- A `SystemExit` payload: an `int` code or any non-`int` object. -/
inductive ExitCodeVal where
  | intCode (n : Int)
  | nonInt
deriving DecidableEq

/-- An exception escaping the `try` body of `start`. -/
inductive StartExc where
  | keyboardInterrupt
  | systemExit (c : ExitCodeVal)
  | otherExc
deriving DecidableEq

/-- The `except` clauses of `start` (lines 596-605), including the
fall-through to `return -1` for a non-`int` `SystemExit` code. -/
def handle_exc : StartExc → Int
  | .keyboardInterrupt => 0
  | .systemExit (.intCode n) => n
  | .systemExit .nonInt => -1
  | .otherExc => -1

def start_status (initExc : Option StartExc) (runAvailable : Bool)
    (runResult : Except StartExc (Option Int)) : Int :=
  match initExc with
  | some e => handle_exc e
  | none =>
    if runAvailable then
      match runResult with
      | .ok ret =>
        match ret with
        | some v => if v == 0 then 0 else v
        | none => 0
      | .error e => handle_exc e
    else -1

/-- C6: a user interrupt during the RUNNING stage yields status `0`; an
explicit early exit (help/version, fatal config/logging error — a
`SystemExit` carrying an `int` code, from either the init stages or the
RUNNING stage) yields the status it carries; any other uncaught exception
escaping the RUNNING stage yields `-1`; and a normal return of the
application's `run` entry point makes the status equal its return value,
defaulting to `0` when no explicit value is returned. -/
theorem start_status_policy :
    (start_status none true (.error .keyboardInterrupt) = 0) ∧
    (∀ (n : Int) (runAvailable : Bool) (runResult : Except StartExc (Option Int)),
      start_status (some (.systemExit (.intCode n))) runAvailable runResult = n) ∧
    (∀ n : Int,
      start_status none true (.error (.systemExit (.intCode n))) = n) ∧
    (start_status none true (.error .otherExc) = -1) ∧
    (∀ v : Int, start_status none true (.ok (some v)) = v) ∧
    (start_status none true (.ok none) = 0) := by
  refine ⟨rfl, fun n ra rr => rfl, fun n => rfl, rfl, ?_, rfl⟩
  intro v
  by_cases hv : v = 0 <;> simp [start_status, hv]

/-!
## The interactive shell loop (C7)

`SubcommandApplication._handle_root_command` (`subcommand_application.py`,
lines 113-151): each iteration blocks on the prompt; `KeyboardInterrupt`
or `EOFError` at the prompt returns `0`; a falsy (empty) line re-prompts;
a non-empty line is parsed and dispatched under a `try` whose clauses
catch `KeyboardInterrupt`, `Command.SubcommandNotAvailableError`,
`HelpRequested`/`VersionRequested` and finally `BaseException` — every
dispatch outcome continues the loop.  Prompt events and per-line dispatch
outcomes are embedded as data. -/

inductive PromptEvent where
  | interruptOrEof
  | line (s : String)
deriving DecidableEq

/-- Outcome of parsing and dispatching one non-empty line: a normal
return, or the exception kind reaching the `except` clauses. -/
inductive DispatchOutcome where
  | ok
  | keyboardInterrupt
  | subcommandNotAvailable
  | helpOrVersionRequested
  | otherException
deriving DecidableEq

inductive ShellStepResult where
  | continueLoop
  | exitLoop (status : Int)
deriving DecidableEq

def shell_step (ev : PromptEvent) (dispatch : String → DispatchOutcome) :
    ShellStepResult :=
  match ev with
  | .interruptOrEof => .exitLoop 0
  | .line s =>
    if s.isEmpty then .continueLoop
    else
      match dispatch s with
      | .ok => .continueLoop
      | .keyboardInterrupt => .continueLoop
      | .subcommandNotAvailable => .continueLoop
      | .helpOrVersionRequested => .continueLoop
      | .otherException => .continueLoop

/-- Run the loop over a finite prefix of prompt events: `some status` when
the loop returned within the prefix, `none` when it is still looping. -/
def shell_run (evs : List PromptEvent) (dispatch : String → DispatchOutcome) :
    Option Int :=
  match evs with
  | [] => none
  | ev :: rest =>
    match shell_step ev dispatch with
    | .exitLoop n => some n
    | .continueLoop => shell_run rest dispatch

/-- C7: every input line — whatever its parse/dispatch outcome, including
unknown subcommands, handler exceptions, help/version requests and
interrupts during the command — continues the loop; the loop only ever
returns on an interrupt or end-of-input at the prompt, and then with
status `0`. -/
theorem shell_loop_never_exits_on_command_error :
    (∀ (dispatch : String → DispatchOutcome) (s : String),
      shell_step (.line s) dispatch = .continueLoop) ∧
    (∀ dispatch : String → DispatchOutcome,
      shell_step .interruptOrEof dispatch = .exitLoop 0) ∧
    (∀ (dispatch : String → DispatchOutcome) (evs : List PromptEvent) (n : Int),
      shell_run evs dispatch = some n →
        n = 0 ∧ PromptEvent.interruptOrEof ∈ evs) := by
  have hline : ∀ (dispatch : String → DispatchOutcome) (s : String),
      shell_step (.line s) dispatch = .continueLoop := by
    intro dispatch s
    by_cases hs : s.isEmpty
    · simp [shell_step, hs]
    · cases hd : dispatch s <;> simp [shell_step, hs, hd]
  refine ⟨hline, fun dispatch => rfl, ?_⟩
  intro dispatch evs n h
  induction evs with
  | nil => simp [shell_run] at h
  | cons ev rest ih =>
    cases ev with
    | interruptOrEof =>
      refine ⟨?_, by simp⟩
      simpa [shell_run, shell_step] using h.symm
    | line s =>
      rw [shell_run, hline dispatch s] at h
      obtain ⟨h0, hmem⟩ := ih h
      exact ⟨h0, List.mem_cons_of_mem _ hmem⟩

theorem shell_loop_never_exits_on_command_error_witness :
    (0 : Int) = 0 ∧
      PromptEvent.interruptOrEof ∈
        [PromptEvent.line "bogus subcommand", PromptEvent.interruptOrEof] :=
  shell_loop_never_exits_on_command_error.2.2 (fun _ => .subcommandNotAvailable)
    [PromptEvent.line "bogus subcommand", PromptEvent.interruptOrEof] 0 rfl

/-!
## Stage-one rejection of conflicting verbosity flags (C8)

`__init_argparse` (`generic_application.py`, lines 284-305): after parsing
known arguments, `verbose ∧ quiet` raises an `argparse.ArgumentError`,
whose handler activates default logging (so the message is visible), logs
the error and calls `self.__exit(error=True)` → `sys.exit(-1)`.
`start` runs `__init_stage_one` (which is exactly `__init_argparse` plus
stage-one hooks) strictly before `__init_stage_two` (custom/default
logging init, then application-config init, per the feature toggles) and
the RUNNING stage, and catches the `SystemExit` as status `-1`.  The
pipeline is embedded as a status plus an ordered event trace; stage-two
components and the `run` method are abstracted to their successful path
(`runStatus`), which the rejection path never reaches. -/

inductive AppEvent where
  | defaultLoggingInit
  | customLoggingInit
  | appConfigInit
  | runStarted
deriving DecidableEq

structure StartToggles where
  customLoggingEnabled : Bool
  defaultLoggingEnabled : Bool
  appConfigEnabled : Bool
deriving DecidableEq

/-- The `verbose ∧ quiet` check of `__init_argparse`: the emitted events
and the `sys.exit` code, if any. -/
def init_argparse_check (verbose quiet : Bool) : List AppEvent × Option Int :=
  if verbose && quiet then ([.defaultLoggingInit], some (-1)) else ([], none)

def start_trace (verbose quiet : Bool) (t : StartToggles) (runStatus : Int) :
    Int × List AppEvent :=
  let s₁ := init_argparse_check verbose quiet
  match s₁.2 with
  | some code => (code, s₁.1)
  | none =>
    let loggingEvents :=
      if t.customLoggingEnabled then [AppEvent.customLoggingInit]
      else if t.defaultLoggingEnabled then [AppEvent.defaultLoggingInit]
      else []
    let configEvents := if t.appConfigEnabled then [AppEvent.appConfigInit] else []
    (runStatus, s₁.1 ++ loggingEvents ++ configEvents ++ [AppEvent.runStarted])

/-- C8: whenever both the verbose and the quiet flag are set, startup is
rejected during stage one as a fatal error: default logging is
force-activated first (so the message is visible) and the process then
terminates with status `-1`, before any stage-two work — logging
initialization per the toggles, application-config resolution — or the
RUNNING stage begins; by contrast a run without the conflict proceeds
into stage two and the RUNNING stage. -/
theorem verbose_quiet_conflict_fatal_before_stage_two :
    (∀ (t : StartToggles) (runStatus : Int),
      start_trace true true t runStatus = (-1, [.defaultLoggingInit])) ∧
    (∀ (t : StartToggles) (runStatus : Int),
      AppEvent.customLoggingInit ∉ (start_trace true true t runStatus).2 ∧
      AppEvent.appConfigInit ∉ (start_trace true true t runStatus).2 ∧
      AppEvent.runStarted ∉ (start_trace true true t runStatus).2) ∧
    (∀ runStatus : Int,
      start_trace false false ⟨true, true, true⟩ runStatus =
        (runStatus, [.customLoggingInit, .appConfigInit, .runStarted])) := by
  refine ⟨fun t rs => rfl, fun t rs => ?_, fun rs => rfl⟩
  refine ⟨?_, ?_, ?_⟩ <;> simp [start_trace, init_argparse_check]

end SimplePythonApp
